import Mathlib

/-
Verification development for the phone-number matcher engine
(cpp/src/phonenumbers/phonenumbermatcher.cc).

The matcher engine itself (candidate production, classification, inner-match
extraction, context checking, leniency verification, and the has_next/next
iterator) is embedded below directly from the source file.  External
collaborators that the source file only calls into - the parser/validator
PhoneNumberUtil ("PhoneLib"), the ICU/RE2 regular-expression engines, the
Unicode character database, EncodingUtils and the string utilities - are not
part of the source under verification; they are modelled as an explicit
environment of oracle functions (`Env`), with their interface taken from the
specification.  Text is a byte string, modelled as `List Char`; offsets are
byte indices.
-/

set_option maxRecDepth 8000

namespace PhoneMatcher

/-- Byte strings (the matcher treats text as a UTF-8 byte buffer). -/
abbrev Str := List Char

/-- Decoded Unicode code points (ICU char32). -/
abbrev Char32 := Nat

/-- Unicode blocks distinguished by PhoneNumberMatcher::IsLatinLetter; every
other block is collapsed into `otherBlock`. -/
inductive UBlock where
  | basicLatin
  | latin1Supplement
  | latinExtendedA
  | latinExtendedAdditional
  | latinExtendedB
  | combiningDiacriticalMarks
  | otherBlock
deriving DecidableEq

/-- PhoneNumber.CountryCodeSource values from the protocol buffer. -/
inductive CCSource where
  | unspecified
  | fromNumberWithPlusSign
  | fromNumberWithIdd
  | fromNumberWithoutPlusSign
  | fromDefaultCountry
deriving DecidableEq

/-- The parsed phone-number value, restricted to the fields the matcher reads
or clears.  Optional protocol-buffer fields are `Option`s; `extension.isSome`
models `has_extension()`. -/
structure PhoneNumber where
  countryCode : Nat
  extension : Option Str
  countryCodeSource : Option CCSource
  rawInput : Option Str
  preferredDomesticCarrierCode : Option Str
deriving DecidableEq

/-- Getter for the proto extension field: unset reads as the empty string. -/
def extensionStr (n : PhoneNumber) : Str := n.extension.getD []

/-- Getter for the proto country_code_source field with its default value. -/
def ccSourceOrDefault (n : PhoneNumber) : CCSource :=
  n.countryCodeSource.getD CCSource.unspecified

/-- Getter for the proto raw_input field: unset reads as the empty string. -/
def rawInputStr (n : PhoneNumber) : Str := n.rawInput.getD []

def defaultNumber : PhoneNumber := ⟨0, none, none, none, none⟩

/-- Opaque handle for per-region metadata (contents are PhoneLib's business). -/
structure PhoneMetadata where
  mdId : Nat
deriving DecidableEq

/-- The slice of a NumberFormat rule read by IsNationalPrefixPresentIfRequired. -/
structure NumberFormat where
  nationalPrefixFormattingRule : Str
  nationalPrefixOptionalWhenFormatting : Bool
deriving DecidableEq

/-- The four leniency tiers, in the C++ enum order. -/
inductive Leniency where
  | possible
  | valid
  | strictGrouping
  | exactGrouping
deriving DecidableEq

/-- Numeric value of the C++ Leniency enum. -/
def Leniency.rank : Leniency → Nat
  | .possible => 0
  | .valid => 1
  | .strictGrouping => 2
  | .exactGrouping => 3

/-- The test `leniency_ >= VALID` from the source. -/
def atLeastValid (l : Leniency) : Bool := decide (1 ≤ l.rank)

/-- Iterator states of the matcher. -/
inductive MState where
  | notReady
  | ready
  | done
deriving DecidableEq

/-- An emitted match: byte offset, literal substring, parsed number. -/
structure PhoneMatch where
  start : Nat
  rawString : Str
  number : PhoneNumber
deriving DecidableEq

/-- PhoneNumberMatch::end() = start + raw_string.length(). -/
def PhoneMatch.endPos (m : PhoneMatch) : Nat := m.start + m.rawString.length

def defaultPhoneMatch : PhoneMatch := ⟨0, [], defaultNumber⟩

/- ## Plain string helpers

Modelled from the spec: these reproduce std::string / stringutil operations
(find with a start position, substr, HasPrefixString, HasSuffixString, FindNth,
SplitStringUsing) that the source file uses but whose implementations live
outside the file under verification. -/

def isAsciiDigit (c : Char) : Bool := decide ('0' ≤ c) && decide (c ≤ '9')

def isXChar (c : Char) : Bool := c = 'x' || c = 'X'

/-- Scan positions p, p+1, ... for the first occurrence of `pat` in `s`. -/
def subfindGo (s pat : Str) (p : Nat) : Nat → Option Nat
  | 0 => none
  | fuel + 1 =>
    if pat.isPrefixOf (s.drop p) then some p else subfindGo s pat (p + 1) fuel

/-- std::string::find(pat, start): first index at or after `start` where `pat`
occurs in `s` (an empty pattern is found immediately); `none` is npos. -/
def findSubstrFrom (s pat : Str) (start : Nat) : Option Nat :=
  if start ≤ s.length then subfindGo s pat start (s.length + 1 - start) else none

/-- find(pat) != npos. -/
def containsSubstr (s pat : Str) : Bool := (findSubstrFrom s pat 0).isSome

/-- std::string::find(char, start). -/
def findCharFrom (s : Str) (c : Char) (start : Nat) : Option Nat :=
  findSubstrFrom s [c] start

def countChar (s : Str) (c : Char) : Nat := s.countP (fun a => a = c)

/-- FindNth(candidate, '/', 2) != string::npos, i.e. the candidate holds two
or more '/' characters. -/
def hasTwoSlashes (s : Str) : Bool := decide (2 ≤ countChar s '/')

/-- std::string::substr(pos, len). -/
def substr (s : Str) (pos len : Nat) : Str := (s.drop pos).take len

/-- Splits off the maximal ASCII digit runs of a string, in order: exactly the
successive captures of the regex (\d+) under FindAndConsume.  The Bool of the
auxiliary result records whether the string starts with a digit. -/
def digitRunsAux : Str → List Str × Bool
  | [] => ([], false)
  | c :: rest =>
    let r := digitRunsAux rest
    if isAsciiDigit c then
      if r.2 then
        match r.1 with
        | g :: gs => ((c :: g) :: gs, true)
        | [] => ([[c]], true)
      else ([c] :: r.1, true)
    else (r.1, false)

def digitRuns (s : Str) : List Str := (digitRunsAux s).1

/-- Pieces of `s` delimited by `c` (empty pieces included). -/
def splitCharAux (c : Char) : Str → Str × List Str
  | [] => ([], [])
  | a :: rest =>
    let r := splitCharAux c rest
    if a = c then ([], r.1 :: r.2) else (a :: r.1, r.2)

/-- SplitStringUsing from stringutil: split on the delimiter, dropping empty
pieces. -/
def splitChar (c : Char) (s : Str) : List Str :=
  let r := splitCharAux c s
  (r.1 :: r.2).filter (fun p => !p.isEmpty)

/-- vector::at with a C++ int index: `none` models the out-of-bounds abort. -/
def atI (l : List Str) (i : Int) : Option Str :=
  if 0 ≤ i then l[i.toNat]? else none

/- ## The collaborator environment

Modelled from the spec: each field is one operation the matcher consumes from
PhoneLib, the regular-expression engines (each compiled pattern becomes one
match/consume function), the Unicode character database or EncodingUtils.
`findPhone` is FindAndConsume of the principal phone pattern: it returns the
captured candidate and the input remaining after it.  `groupSeparatorConsume`
is FindAndConsume of the group_separator pattern, returning the remaining
input.  `decodeCharBefore text offset` decodes the code point obtained by
stepping back one full UTF-8 sequence from `offset`; `decodeCharAfter text i`
decodes the code point at byte index `i`. -/
structure Env where
  findPhone : Str → Option (Str × Str)
  captureUpToSecondNumberStart : Str → Str
  pubPages : Str → Bool
  slashSeparatedDates : Str → Bool
  timeStamps : Str → Bool
  timeStampsSuffixConsume : Str → Bool
  matchingBrackets : Str → Bool
  leadClassConsume : Str → Bool
  groupSeparatorConsume : Str → Option Str
  parseAndKeepRawInput : Str → Str → Option PhoneNumber
  isPossibleNumber : PhoneNumber → Bool
  isValidNumber : PhoneNumber → Bool
  isNumberMatchNSN : PhoneNumber → Str → Bool
  normalizeDigitsOnly : Str → Str
  getNationalSignificantNumber : PhoneNumber → Str
  formatRFC3966 : PhoneNumber → Str
  trimUnwantedEndChars : Str → Str
  normalizeDecimalDigits : Str → Str
  decodeCharBefore : Str → Nat → Char32
  decodeCharAfter : Str → Nat → Char32
  uIsAlpha : Char32 → Bool
  uIsNonSpacingMark : Char32 → Bool
  uIsCurrencySymbol : Char32 → Bool
  ublockGetCode : Char32 → UBlock

/-- Region metadata collaborators, used only by
IsNationalPrefixPresentIfRequired. -/
structure MetaEnv where
  getRegionCodeForCountryCode : Nat → Str
  getMetadataForRegion : Str → Option PhoneMetadata
  chooseFormattingPatternForNumber : PhoneMetadata → Str → Option NumberFormat
  maybeStripNationalPrefixAndCarrierCode : PhoneMetadata → Str → Bool

/- ## The embedded matcher code, in source order -/

/-- IsInvalidPunctuationSymbol: '%' or a currency symbol. -/
def isInvalidPunctuationSymbol (env : Env) (c : Char32) : Bool :=
  c = Char.toNat '%' || env.uIsCurrencySymbol c

/-- PhoneNumberMatcher::IsLatinLetter. -/
def isLatinLetter (env : Env) (c : Char32) : Bool :=
  if !env.uIsAlpha c && !env.uIsNonSpacingMark c then false
  else
    let block := env.ublockGetCode c
    block = UBlock.basicLatin || block = UBlock.latin1Supplement ||
    block = UBlock.latinExtendedA || block = UBlock.latinExtendedAdditional ||
    block = UBlock.latinExtendedB || block = UBlock.combiningDiacriticalMarks

/-- GetNationalNumberGroups: format in RFC3966 (+CC-DG-DG[;ext=EXT]), cut the
extension off at ';', cut the country code off through its following '-', and
split the rest on '-'. -/
def getNationalNumberGroups (env : Env) (number : PhoneNumber) : List Str :=
  let rfc := env.formatRFC3966 number
  let endIndex := (findCharFrom rfc ';' 0).getD rfc.length
  let startIndex := match findCharFrom rfc '-' 0 with
    | some i => i + 1
    | none => 0
  splitChar '-' (substr rfc startIndex (endIndex - startIndex))

/-- Position scan for candidate.find_first_of("xX", p); the fuel `s.length - p`
covers every position from `p` to the end. -/
def findXGo (s : Str) (p : Nat) : Nat → Option Nat
  | 0 => none
  | fuel + 1 =>
    if p < s.length then
      if isXChar (s.getD p ' ') then some p else findXGo s (p + 1) fuel
    else none

/-- First index at or after `p` holding an ASCII 'x' or 'X'
(candidate.find_first_of("xX", p)). -/
def findXFrom (s : Str) (p : Nat) : Option Nat := findXGo s p (s.length - p)

/-- The while loop of ContainsOnlyValidXChars.  `foundOpt` is the position of
the x/X under consideration; the fuel only bounds the recursion and never runs
out when it starts at candidate.length + 1, since the search position strictly
increases. -/
def xCharsLoop (env : Env) (number : PhoneNumber) (cand : Str) :
    Nat → Option Nat → Bool
  | _, none => true
  | 0, some _ => true
  | fuel + 1, some found =>
    if found + 1 < cand.length then
      if isXChar (cand.getD (found + 1) ' ') then
        if env.isNumberMatchNSN number (cand.drop (found + 1)) then
          xCharsLoop env number cand fuel (findXFrom cand (found + 2))
        else false
      else
        if env.normalizeDigitsOnly (cand.drop found) = extensionStr number then
          xCharsLoop env number cand fuel (findXFrom cand (found + 1))
        else false
    else true

/-- ContainsOnlyValidXChars from the source file. -/
def containsOnlyValidXChars (env : Env) (number : PhoneNumber) (cand : Str) : Bool :=
  xCharsLoop env number cand (cand.length + 1) (findXFrom cand 0)

/-- PhoneNumberMatcher::IsNationalPrefixPresentIfRequired. -/
def isNationalPrefixPresentIfRequired (env : Env) (menv : MetaEnv)
    (number : PhoneNumber) : Bool :=
  if ccSourceOrDefault number ≠ CCSource.fromDefaultCountry then true
  else
    let region := menv.getRegionCodeForCountryCode number.countryCode
    match menv.getMetadataForRegion region with
    | none => true
    | some metadata =>
      let nationalNumber := env.getNationalSignificantNumber number
      match menv.chooseFormattingPatternForNumber metadata nationalNumber with
      | none => true
      | some formatRule =>
        if formatRule.nationalPrefixFormattingRule.isEmpty then true
        else if formatRule.nationalPrefixOptionalWhenFormatting then true
        else
          let rule := formatRule.nationalPrefixFormattingRule
          -- The C++ erases from the position of the first-group marker to the
          -- end; metadata rules always contain the marker, so keeping the rule
          -- whole when it is absent only covers a case the source never hits.
          let cut := (findSubstrFrom rule ['$', '1'] 0).getD rule.length
          let candidateRule := env.normalizeDigitsOnly (rule.take cut)
          if candidateRule.isEmpty then true
          else
            menv.maybeStripNationalPrefixAndCarrierCode metadata
              (env.normalizeDigitsOnly (rawInputStr number))

/-- The group walk of the STRICT_GROUPING case: for each formatted group in
turn, find it in the normalized candidate at or after the cursor; after the
first group, if the cursor then sits on an ASCII digit, return whether the
candidate from the group start onward begins with the national significant
number.  `Sum.inl b` is an early return with value `b`; `Sum.inr fromIdx` is
normal loop exit with the final cursor. -/
def strictLoop (env : Env) (number : PhoneNumber) (ncand : Str) :
    List Str → Nat → Nat → Sum Bool Nat
  | [], _, fromIdx => Sum.inr fromIdx
  | g :: rest, i, fromIdx =>
    match findSubstrFrom ncand g fromIdx with
    | none => Sum.inl false
    | some idx =>
      let fromIdx2 := idx + g.length
      if i = 0 && decide (fromIdx2 < ncand.length) &&
          isAsciiDigit (ncand.getD fromIdx2 ' ') then
        Sum.inl (List.isPrefixOf (env.getNationalSignificantNumber number)
          (ncand.drop (fromIdx2 - g.length)))
      else strictLoop env number ncand rest (i + 1) fromIdx2

/-- The STRICT_GROUPING group-alignment check (the part of that case after the
common predicates). -/
def strictGroupingCheck (env : Env) (number : PhoneNumber) (candidate : Str) : Bool :=
  let ncand := env.normalizeDecimalDigits candidate
  let fgroups := getNationalNumberGroups env number
  match strictLoop env number ncand fgroups 0 0 with
  | Sum.inl b => b
  | Sum.inr fromIdx =>
    (findSubstrFrom (ncand.drop fromIdx) (extensionStr number) 0).isSome

/-- The final statement of the EXACT_GROUPING case: accept iff the candidate
index is still non-negative and the candidate group there ends with the first
formatted group.  `none` models an out-of-bounds vector::at abort (the first
formatted group is read whenever the candidate index is non-negative). -/
def exactTail (cgroups fgroups : List Str) (cidx : Int) : Option Bool :=
  if 0 ≤ cidx then
    match atI cgroups cidx, fgroups[0]? with
    | some cg, some f0 => some (List.isSuffixOf f0 cg)
    | some _, none => none
    | none, _ => none
  else some false

/-- The reverse lock-step walk of the EXACT_GROUPING case.  The formatted
index is kept as a Nat (the C++ loop guard keeps it positive while running,
and indexing happens only at positive values); the candidate index stays an
Int since it may start at -1.  `none` models an out-of-bounds vector::at
abort. -/
def exactLoop (cgroups fgroups : List Str) : Nat → Int → Option Bool
  | 0, cidx => exactTail cgroups fgroups cidx
  | fidx + 1, cidx =>
    if 0 ≤ cidx then
      match atI cgroups cidx, fgroups[fidx + 1]? with
      | some cg, some fg =>
        if cg = fg then exactLoop cgroups fgroups fidx (cidx - 1)
        else some false
      | some _, none => none
      | none, _ => none
    else some false

/-- The EXACT_GROUPING group-alignment check (the part of that case after the
common predicates); `none` models an out-of-bounds vector::at abort. -/
def exactGroupingCheckOpt (env : Env) (number : PhoneNumber) (candidate : Str) :
    Option Bool :=
  let ncand := env.normalizeDecimalDigits candidate
  let cgroups := digitRuns ncand
  let tailIdx : Int :=
    if number.extension.isSome then (cgroups.length : Int) - 2
    else (cgroups.length : Int) - 1
  if cgroups.length = 1 then some true
  else
    match atI cgroups tailIdx with
    | none => none
    | some tg =>
      if containsSubstr tg (env.getNationalSignificantNumber number) then some true
      else
        exactLoop cgroups (getNationalNumberGroups env number)
          ((getNationalNumberGroups env number).length - 1) tailIdx

/-- PhoneNumberMatcher::VerifyAccordingToLeniency. -/
def verifyAccordingToLeniency (env : Env) (menv : MetaEnv) (leniency : Leniency)
    (number : PhoneNumber) (candidate : Str) : Bool :=
  match leniency with
  | .possible => env.isPossibleNumber number
  | .valid =>
    if !env.isValidNumber number ||
        !containsOnlyValidXChars env number candidate then false
    else isNationalPrefixPresentIfRequired env menv number
  | .strictGrouping =>
    if !env.isValidNumber number ||
        !containsOnlyValidXChars env number candidate ||
        hasTwoSlashes candidate ||
        !isNationalPrefixPresentIfRequired env menv number then false
    else strictGroupingCheck env number candidate
  | .exactGrouping =>
    if !env.isValidNumber number ||
        !containsOnlyValidXChars env number candidate ||
        hasTwoSlashes candidate ||
        !isNationalPrefixPresentIfRequired env menv number then false
    else (exactGroupingCheckOpt env number candidate).getD false

/-- Clearing done on the parsed number before it is stored into the match. -/
def clearNumberForMatch (n : PhoneNumber) : PhoneNumber :=
  { n with countryCodeSource := none, preferredDomesticCarrierCode := none,
           rawInput := none }

/-- PhoneNumberMatcher::ParseAndVerify, with the C++ out-parameter made
explicit: the second component is the caller's PhoneNumberMatch after the
call, written only on success. -/
def parseAndVerify (env : Env) (menv : MetaEnv) (text region : Str)
    (leniency : Leniency) (candidate : Str) (offset : Nat)
    (match0 : PhoneMatch) : Bool × PhoneMatch :=
  if !env.matchingBrackets candidate then (false, match0)
  else if atLeastValid leniency && decide (0 < offset) &&
      !env.leadClassConsume candidate &&
      (isInvalidPunctuationSymbol env (env.decodeCharBefore text offset) ||
       isLatinLetter env (env.decodeCharBefore text offset)) then
    (false, match0)
  else if atLeastValid leniency &&
      decide (offset + candidate.length < text.length) &&
      (isInvalidPunctuationSymbol env
         (env.decodeCharAfter text (offset + candidate.length)) ||
       isLatinLetter env
         (env.decodeCharAfter text (offset + candidate.length))) then
    (false, match0)
  else
    match env.parseAndKeepRawInput candidate region with
    | none => (false, match0)
    | some number =>
      if verifyAccordingToLeniency env menv leniency number candidate then
        (true, ⟨offset, candidate, clearNumberForMatch number⟩)
      else (false, match0)

/-- The while loop that walks the group separator to the last occurrence; with
a length-decreasing oracle the fuel `s.length` is never exhausted. -/
def iterSep (env : Env) : Nat → Str → Str
  | 0, s => s
  | fuel + 1, s =>
    match env.groupSeparatorConsume s with
    | none => s
    | some r => iterSep env fuel r

/-- PhoneNumberMatcher::ExtractInnerMatch.  Returns (found, match out-param,
max_tries after the call). -/
def extractInnerMatch (env : Env) (menv : MetaEnv) (text region : Str)
    (leniency : Leniency) (candidate : Str) (offset : Nat)
    (match0 : PhoneMatch) (maxTries : Int) : Bool × PhoneMatch × Int :=
  match env.groupSeparatorConsume candidate with
  | none => (false, match0, maxTries)
  | some rest =>
    let groupStartIndex := candidate.length - rest.length
    let firstGroupOnly := env.trimUnwantedEndChars (candidate.take groupStartIndex)
    let r1 := parseAndVerify env menv text region leniency firstGroupOnly offset match0
    if r1.1 then (true, r1.2, maxTries)
    else
      let mt1 := maxTries - 1
      let withoutFirstGroup := env.trimUnwantedEndChars rest
      let r2 := parseAndVerify env menv text region leniency withoutFirstGroup
        (offset + groupStartIndex) r1.2
      if r2.1 then (true, r2.2, mt1)
      else
        let mt2 := mt1 - 1
        if 0 < mt2 then
          let restFinal := iterSep env rest.length rest
          let lastGroupStart := candidate.length - restFinal.length
          let withoutLastGroup :=
            env.trimUnwantedEndChars (candidate.take lastGroupStart)
          if withoutLastGroup = firstGroupOnly then (false, r2.2, mt2)
          else
            let r3 := parseAndVerify env menv text region leniency
              withoutLastGroup offset r2.2
            if r3.1 then (true, r3.2, mt2) else (false, r3.2, mt2 - 1)
        else (false, r2.2, mt2)

/-- PhoneNumberMatcher::ExtractMatch. -/
def extractMatch (env : Env) (menv : MetaEnv) (text region : Str)
    (leniency : Leniency) (candidate : Str) (offset : Nat)
    (match0 : PhoneMatch) (maxTries : Int) : Bool × PhoneMatch × Int :=
  if env.pubPages candidate || env.slashSeparatedDates candidate then
    (false, match0, maxTries)
  else if env.timeStamps candidate &&
      env.timeStampsSuffixConsume (text.drop (offset + candidate.length)) then
    (false, match0, maxTries)
  else
    let r := parseAndVerify env menv text region leniency candidate offset match0
    if r.1 then (true, r.2, maxTries)
    else extractInnerMatch env menv text region leniency candidate offset r.2 maxTries

/-- The while loop of PhoneNumberMatcher::Find.  The result is (found, match
out-param, max_tries after the call, number of candidates attempted).  The
last component is pure instrumentation counting how many candidates the
phone pattern produced during the call; it is not part of the C++ state.
Each rejected candidate lowers max_tries by at least one, so the loop runs at
most max_tries times and a fuel of maxTries.toNat is never exhausted. -/
def findLoop (env : Env) (menv : MetaEnv) (text region : Str)
    (leniency : Leniency) : Nat → Str → Int → PhoneMatch →
    Bool × PhoneMatch × Int × Nat
  | 0, _, maxTries, match0 => (false, match0, maxTries, 0)
  | fuel + 1, remaining, maxTries, match0 =>
    if 0 < maxTries then
      match env.findPhone remaining with
      | none => (false, match0, maxTries, 0)
      | some (candidate0, remaining2) =>
        let start := text.length - remaining2.length - candidate0.length
        let candidate := env.captureUpToSecondNumberStart candidate0
        let r := extractMatch env menv text region leniency candidate start
          match0 maxTries
        if r.1 then (true, r.2.1, r.2.2, 1)
        else
          let r2 := findLoop env menv text region leniency fuel remaining2
            (r.2.2 - 1) r.2.1
          (r2.1, r2.2.1, r2.2.2.1, r2.2.2.2 + 1)
    else (false, match0, maxTries, 0)

/-- PhoneNumberMatcher::Find(index, match). -/
def findFrom (env : Env) (menv : MetaEnv) (text region : Str)
    (leniency : Leniency) (index : Nat) (maxTries : Int) (match0 : PhoneMatch) :
    Bool × PhoneMatch × Int × Nat :=
  findLoop env menv text region leniency maxTries.toNat (text.drop index)
    maxTries match0

/-- The mutable iterator state of a matcher (the text, region and leniency are
fixed at construction and passed as parameters). -/
structure MatcherS where
  maxTries : Int
  state : MState
  lastMatch : Option PhoneMatch
  searchIndex : Nat
deriving DecidableEq

/-- A freshly constructed matcher. -/
def initMatcher (maxTries : Int) : MatcherS :=
  ⟨maxTries, MState.notReady, none, 0⟩

/-- PhoneNumberMatcher::HasNext. -/
def hasNext (env : Env) (menv : MetaEnv) (text region : Str)
    (leniency : Leniency) (s : MatcherS) : Bool × MatcherS :=
  if s.state = MState.notReady then
    let r := findFrom env menv text region leniency s.searchIndex s.maxTries
      defaultPhoneMatch
    if r.1 then
      (true, ⟨r.2.2.1, MState.ready, some r.2.1, (r.2.1).endPos⟩)
    else
      (false, ⟨r.2.2.1, MState.done, s.lastMatch, s.searchIndex⟩)
  else (decide (s.state = MState.ready), s)

/-- PhoneNumberMatcher::Next, with the out-parameter explicit: the middle
component is the caller's PhoneNumberMatch after the call. -/
def nextCall (env : Env) (menv : MetaEnv) (text region : Str)
    (leniency : Leniency) (s : MatcherS) (match0 : PhoneMatch) :
    Bool × PhoneMatch × MatcherS :=
  let h := hasNext env menv text region leniency s
  if h.1 then
    (true, (h.2).lastMatch.getD defaultPhoneMatch,
     { h.2 with state := MState.notReady, lastMatch := none })
  else (false, match0, h.2)

/-- The list of matches emitted by `k` successive Next calls. -/
def runNext (env : Env) (menv : MetaEnv) (text region : Str)
    (leniency : Leniency) : Nat → MatcherS → List PhoneMatch
  | 0, _ => []
  | k + 1, s =>
    let r := nextCall env menv text region leniency s defaultPhoneMatch
    if r.1 then r.2.1 :: runNext env menv text region leniency k r.2.2
    else runNext env menv text region leniency k r.2.2

/-- One public iterator operation. -/
inductive MOp where
  | callHasNext
  | callNext
deriving DecidableEq

/-- State after one public operation. -/
def stepOp (env : Env) (menv : MetaEnv) (text region : Str)
    (leniency : Leniency) (s : MatcherS) : MOp → MatcherS
  | .callHasNext => (hasNext env menv text region leniency s).2
  | .callNext => (nextCall env menv text region leniency s defaultPhoneMatch).2.2

/-- State after a sequence of public operations. -/
def runOps (env : Env) (menv : MetaEnv) (text region : Str)
    (leniency : Leniency) : List MOp → MatcherS → MatcherS
  | [], s => s
  | op :: ops, s =>
    runOps env menv text region leniency ops
      (stepOp env menv text region leniency s op)

/-- Matches emitted over a sequence of public operations. -/
def emitsOps (env : Env) (menv : MetaEnv) (text region : Str)
    (leniency : Leniency) : List MOp → MatcherS → List PhoneMatch
  | [], _ => []
  | MOp.callHasNext :: ops, s =>
    emitsOps env menv text region leniency ops
      (hasNext env menv text region leniency s).2
  | MOp.callNext :: ops, s =>
    let r := nextCall env menv text region leniency s defaultPhoneMatch
    if r.1 then r.2.1 :: emitsOps env menv text region leniency ops r.2.2
    else emitsOps env menv text region leniency ops r.2.2

/- ## Well-formedness of the collaborator environment

These are interface facts about the collaborators that the ordering guarantees
of the matcher rely on: FindAndConsume returns a decomposition of its input
around the match; kCaptureUpToSecondNumberStart rewrites the candidate to a
captured prefix of itself; the matching_brackets pattern never accepts the
empty string (its core is non_parens+); the group separator only consumes
input; TrimUnwantedEndChars right-trims its argument in place. -/
structure EnvWF (env : Env) : Prop where
  findPhone_split : ∀ s c r, env.findPhone s = some (c, r) → ∃ pre, s = pre ++ c ++ r
  capture_length : ∀ c, (env.captureUpToSecondNumberStart c).length ≤ c.length
  brackets_empty : env.matchingBrackets [] = false
  groupSep_length : ∀ s r, env.groupSeparatorConsume s = some r → r.length ≤ s.length
  trim_length : ∀ s, (env.trimUnwantedEndChars s).length ≤ s.length

/- ## The claim-side reading of ContainsOnlyValidXChars

`claimAllXOccurrencesOK` is the per-occurrence reading: every ASCII x/X that
is not the final character must individually satisfy the carrier-code or
extension rule.  `specContainsOnlyValidX` is the specification's scan: walk
left to right, process each x/X under the same rule, and continue from the
character after the processed x (skipping the second x of a carrier pair). -/
def xOccurrenceOK (env : Env) (number : PhoneNumber) (cand : Str) (i : Nat) : Bool :=
  if isXChar (cand.getD i ' ') && decide (i + 1 < cand.length) then
    if isXChar (cand.getD (i + 1) ' ') then
      env.isNumberMatchNSN number (cand.drop (i + 1))
    else
      decide (env.normalizeDigitsOnly (cand.drop i) = extensionStr number)
  else true

def claimAllXOccurrencesOK (env : Env) (number : PhoneNumber) (cand : Str) : Bool :=
  (List.range cand.length).all (xOccurrenceOK env number cand)

/-- Position-by-position scan for the x/X validity rule, written from the
specification text (continue from the character after the processed x). -/
def specXScan (env : Env) (number : PhoneNumber) (cand : Str) : Nat → Nat → Bool
  | 0, _ => true
  | fuel + 1, p =>
    if p + 1 < cand.length then
      if isXChar (cand.getD p ' ') then
        if isXChar (cand.getD (p + 1) ' ') then
          env.isNumberMatchNSN number (cand.drop (p + 1)) &&
            specXScan env number cand fuel (p + 2)
        else
          decide (env.normalizeDigitsOnly (cand.drop p) = extensionStr number) &&
            specXScan env number cand fuel (p + 1)
      else specXScan env number cand fuel (p + 1)
    else true

def specContainsOnlyValidX (env : Env) (number : PhoneNumber) (cand : Str) : Bool :=
  specXScan env number cand (cand.length + 1) 0

/- ## Concrete environments used by counterexamples and witnesses -/

/-- A collaborator environment in which every pattern misses: the phone
pattern finds nothing, classification patterns reject nothing, parsing fails,
brackets accept exactly the non-empty strings. -/
def envBase : Env :=
  ⟨fun _ => none, fun s => s, fun _ => false, fun _ => false, fun _ => false,
   fun _ => false, fun s => !s.isEmpty, fun _ => false, fun _ => none,
   fun _ _ => none, fun _ => true, fun _ => true, fun _ _ => false,
   fun s => s.filter isAsciiDigit, fun _ => [], fun _ => [], fun s => s,
   fun s => s, fun _ _ => 0, fun _ _ => 0, fun _ => false, fun _ => false,
   fun _ => false, fun _ => UBlock.otherBlock⟩

def menvBase : MetaEnv :=
  ⟨fun _ => [], fun _ => none, fun _ _ => none, fun _ _ => true⟩

def textC1 : Str := ['5']

/-- Environment whose phone pattern yields the single candidate "5", which
parses and is accepted at POSSIBLE leniency. -/
def envC1 : Env :=
  { envBase with
    findPhone := fun s => if s = ['5'] then some (['5'], []) else none,
    parseAndKeepRawInput := fun _ _ => some defaultNumber }

def textC2 : Str := ['a', ' ', 'b']

/-- Environment whose phone pattern yields one candidate containing a group
separator, with every verification failing, so that inner-match peeling runs. -/
def envC2 : Env :=
  { envBase with
    findPhone := fun s => if s = ['a', ' ', 'b'] then some (['a', ' ', 'b'], []) else none,
    matchingBrackets := fun _ => false,
    groupSeparatorConsume := fun s => if s = ['a', ' ', 'b'] then some ['b'] else none }

def candC5 : Str := "0110 11 22".toList

def numberC5 : PhoneNumber := ⟨1, none, some CCSource.fromNumberWithPlusSign, none, none⟩

/-- Environment for the leniency comparison: the number formats as +1-11-22,
its national significant number is 1122, and every number is valid. -/
def envC5 : Env :=
  { envBase with
    getNationalSignificantNumber := fun _ => "1122".toList,
    formatRFC3966 := fun _ => "+1-11-22".toList }

def candC8 : Str := "xx5".toList

/-- Environment in which the candidate tail "x5" counts as an NSN match. -/
def envC8 : Env :=
  { envBase with isNumberMatchNSN := fun _ s => s = "x5".toList }

def textC7 : Str := "a5b".toList

/-- Environment whose Unicode oracle classifies code point 97 as an alphabetic
Basic Latin character and decodes it on both sides of any candidate. -/
def envC7 : Env :=
  { envBase with
    uIsAlpha := fun c => c = 97,
    ublockGetCode := fun c => if c = 97 then UBlock.basicLatin else UBlock.otherBlock,
    decodeCharBefore := fun _ _ => 97,
    decodeCharAfter := fun _ _ => 97 }

/-- Environment whose RFC3966 formatting yields the groups 11 and 22. -/
def envC9 : Env :=
  { envBase with formatRFC3966 := fun _ => "+1-11-22".toList }

/-- Iterator invariant: the search cursor stays within the text, and a READY
state holds a cached match that ends at or before the cursor. -/
def MInv (text : Str) (s : MatcherS) : Prop :=
  s.searchIndex ≤ text.length ∧
  (s.state = MState.ready → ∃ lm, s.lastMatch = some lm ∧
    lm.start < lm.endPos ∧ lm.endPos ≤ s.searchIndex)

/-- Lower bound on the start of any match the matcher can still emit: the
cached match's start when one is pending, the search cursor otherwise. -/
def lowBound (s : MatcherS) : Nat :=
  match s.state, s.lastMatch with
  | MState.ready, some lm => lm.start
  | _, _ => s.searchIndex

/- ## Case analysis of ParseAndVerify -/

/-- Every call to ParseAndVerify either fails leaving the out-parameter
untouched, or succeeds on a parsed and verified number and writes the match
fields. -/
theorem parseAndVerify_cases (env : Env) (menv : MetaEnv) (text region : Str)
    (leniency : Leniency) (candidate : Str) (offset : Nat) (match0 : PhoneMatch) :
    parseAndVerify env menv text region leniency candidate offset match0 =
      (false, match0) ∨
    ∃ n, env.parseAndKeepRawInput candidate region = some n ∧
      verifyAccordingToLeniency env menv leniency n candidate = true ∧
      env.matchingBrackets candidate = true ∧
      parseAndVerify env menv text region leniency candidate offset match0 =
        (true, ⟨offset, candidate, clearNumberForMatch n⟩) := by
  unfold parseAndVerify
  split
  · exact Or.inl rfl
  · next hbr =>
    split
    · exact Or.inl rfl
    · split
      · exact Or.inl rfl
      · split
        · exact Or.inl rfl
        · next n hn =>
          split
          · next hv => exact Or.inr ⟨n, hn, hv, by simpa using hbr, rfl⟩
          · exact Or.inl rfl

/- ## C6: zero budget emits nothing -/

/-- C6: for every environment, text, region and leniency, a matcher whose
max_tries is 0 finds nothing on the first has_next call: has_next returns
false and moves the state to DONE, and the underlying Find call attempts no
candidate at all (the instrumented attempt count of the loop is 0). -/
theorem C6_zero_budget :
    ∀ (env : Env) (menv : MetaEnv) (text region : Str) (leniency : Leniency)
      (s : MatcherS), s.maxTries = 0 → s.state = MState.notReady →
      hasNext env menv text region leniency s =
        (false, ⟨0, MState.done, s.lastMatch, s.searchIndex⟩) ∧
      (findFrom env menv text region leniency s.searchIndex s.maxTries
          defaultPhoneMatch).2.2.2 = 0 := by
  intro env menv text region leniency s hmt hst
  have hfind : findFrom env menv text region leniency s.searchIndex s.maxTries
      defaultPhoneMatch = (false, defaultPhoneMatch, 0, 0) := by
    rw [hmt]; rfl
  refine ⟨?_, by rw [hfind]⟩
  rw [hasNext, if_pos hst, hfind]
  rfl

/-- Witness for C6 at a concrete matcher with max_tries 0. -/
theorem C6_zero_budget_witness :
    hasNext envBase menvBase [] [] Leniency.valid (initMatcher 0) =
      (false, ⟨0, MState.done, none, 0⟩) ∧
    (findFrom envBase menvBase [] [] Leniency.valid 0 0 defaultPhoneMatch).2.2.2 = 0 :=
  C6_zero_budget envBase menvBase [] [] Leniency.valid (initMatcher 0) rfl rfl

/- ## C4: the iterator state machine -/

/-- C4: the iterator makes exactly the specified transitions: from NOT_READY,
has_next moves to READY when a match is produced and to DONE when the scan
exhausts; from READY, a next call succeeds and moves back to NOT_READY; DONE
is terminal, and once DONE no operation changes the state or emits a match. -/
theorem C4_state_transitions :
    ∀ (env : Env) (menv : MetaEnv) (text region : Str) (leniency : Leniency),
      (∀ s : MatcherS, s.state = MState.notReady →
        (((hasNext env menv text region leniency s).1 = true →
            ((hasNext env menv text region leniency s).2).state = MState.ready) ∧
         ((hasNext env menv text region leniency s).1 = false →
            ((hasNext env menv text region leniency s).2).state = MState.done))) ∧
      (∀ s : MatcherS, s.state = MState.ready →
        (nextCall env menv text region leniency s defaultPhoneMatch).1 = true ∧
        ((nextCall env menv text region leniency s defaultPhoneMatch).2.2).state =
          MState.notReady) ∧
      (∀ (s : MatcherS) (ops : List MOp), s.state = MState.done →
        runOps env menv text region leniency ops s = s ∧
        emitsOps env menv text region leniency ops s = []) := by
  intro env menv text region leniency
  refine ⟨?_, ?_, ?_⟩
  · intro s hs
    cases hfound : (findFrom env menv text region leniency s.searchIndex
        s.maxTries defaultPhoneMatch).1 <;>
      constructor <;> intro hb <;> simp [hasNext, hs, hfound] at hb ⊢
  · intro s hs
    have h1 : hasNext env menv text region leniency s = (true, s) := by
      simp [hasNext, hs]
    simp [nextCall, h1]
  · intro s ops hs
    have hh : hasNext env menv text region leniency s = (false, s) := by
      simp [hasNext, hs]
    have hn : nextCall env menv text region leniency s defaultPhoneMatch =
        (false, defaultPhoneMatch, s) := by
      simp [nextCall, hh]
    induction ops with
    | nil => exact ⟨rfl, rfl⟩
    | cons op ops ih =>
      cases op with
      | callHasNext => simpa [runOps, stepOp, emitsOps, hh] using ih
      | callNext => simpa [runOps, stepOp, emitsOps, hn] using ih

/-- Witness for C4: a DONE matcher is unchanged by operations and emits
nothing. -/
theorem C4_state_transitions_witness :
    runOps envBase menvBase [] [] Leniency.valid [MOp.callHasNext, MOp.callNext]
      ⟨3, MState.done, none, 0⟩ = ⟨3, MState.done, none, 0⟩ ∧
    emitsOps envBase menvBase [] [] Leniency.valid [MOp.callHasNext, MOp.callNext]
      ⟨3, MState.done, none, 0⟩ = [] :=
  (C4_state_transitions envBase menvBase [] [] Leniency.valid).2.2
    ⟨3, MState.done, none, 0⟩ [MOp.callHasNext, MOp.callNext] rfl

/- ## C10: rejection leaves the out-parameter untouched -/

/-- C10: whenever ParseAndVerify returns false, the caller-supplied match is
left unmodified; when it returns true, the match fields carry the offset, the
candidate, and the parsed number with country_code_source,
preferred_domestic_carrier_code and raw_input cleared; and whenever Next
returns false the caller-supplied match is left unmodified. -/
theorem C10_rejection_atomic :
    ∀ (env : Env) (menv : MetaEnv) (text region : Str) (leniency : Leniency)
      (candidate : Str) (offset : Nat) (match0 : PhoneMatch),
      ((parseAndVerify env menv text region leniency candidate offset match0).1 =
          false →
        (parseAndVerify env menv text region leniency candidate offset match0).2 =
          match0) ∧
      ((parseAndVerify env menv text region leniency candidate offset match0).1 =
          true →
        (parseAndVerify env menv text region leniency candidate offset
            match0).2.start = offset ∧
        (parseAndVerify env menv text region leniency candidate offset
            match0).2.rawString = candidate ∧
        (parseAndVerify env menv text region leniency candidate offset
            match0).2.number.countryCodeSource = none ∧
        (parseAndVerify env menv text region leniency candidate offset
            match0).2.number.preferredDomesticCarrierCode = none ∧
        (parseAndVerify env menv text region leniency candidate offset
            match0).2.number.rawInput = none) ∧
      (∀ s : MatcherS,
        (nextCall env menv text region leniency s match0).1 = false →
        (nextCall env menv text region leniency s match0).2.1 = match0) := by
  intro env menv text region leniency candidate offset match0
  refine ⟨?_, ?_, ?_⟩
  · intro h
    rcases parseAndVerify_cases env menv text region leniency candidate offset
        match0 with hc | ⟨n, _, _, _, hc⟩
    · rw [hc]
    · rw [hc] at h; cases h
  · intro h
    rcases parseAndVerify_cases env menv text region leniency candidate offset
        match0 with hc | ⟨n, _, _, _, hc⟩
    · rw [hc] at h; cases h
    · rw [hc]
      exact ⟨rfl, rfl, rfl, rfl, rfl⟩
  · intro s h
    cases hh : (hasNext env menv text region leniency s).1 <;>
      simp [nextCall, hh] at h ⊢

/-- Witness for C10 at a failing ParseAndVerify call. -/
theorem C10_rejection_atomic_witness :
    (parseAndVerify envBase menvBase [] [] Leniency.valid ['5'] 0
        defaultPhoneMatch).2 = defaultPhoneMatch :=
  (C10_rejection_atomic envBase menvBase [] [] Leniency.valid ['5'] 0
      defaultPhoneMatch).1 (by decide)

/- ## C7: the context checks reject Latin letters and invalid punctuation -/

/-- C7: for leniency at least VALID, ParseAndVerify rejects (returning false
and leaving the match untouched) whenever the decoded code point immediately
before the candidate - examined only when the offset is positive and the
candidate does not start with a lead-class character - is a Latin letter or
an invalid punctuation symbol, and likewise whenever bytes remain after the
candidate and the decoded code point immediately after it is a Latin letter
or an invalid punctuation symbol. -/
theorem C7_context_check_rejects :
    ∀ (env : Env) (menv : MetaEnv) (text region : Str) (leniency : Leniency)
      (candidate : Str) (offset : Nat) (match0 : PhoneMatch),
      atLeastValid leniency = true →
      ((0 < offset → env.leadClassConsume candidate = false →
        (isLatinLetter env (env.decodeCharBefore text offset) = true ∨
         isInvalidPunctuationSymbol env (env.decodeCharBefore text offset) = true) →
        parseAndVerify env menv text region leniency candidate offset match0 =
          (false, match0)) ∧
       (offset + candidate.length < text.length →
        (isLatinLetter env (env.decodeCharAfter text (offset + candidate.length)) =
           true ∨
         isInvalidPunctuationSymbol env
           (env.decodeCharAfter text (offset + candidate.length)) = true) →
        parseAndVerify env menv text region leniency candidate offset match0 =
          (false, match0))) := by
  intro env menv text region leniency candidate offset match0 hal
  constructor
  · intro hoff hlead hchar
    unfold parseAndVerify
    split
    · rfl
    · split
      · rfl
      · next hcond =>
        exfalso
        apply hcond
        rcases hchar with h | h <;>
          simp [hal, hlead, hoff, h]
  · intro hlen hchar
    unfold parseAndVerify
    split
    · rfl
    · split
      · rfl
      · split
        · rfl
        · next hcond =>
          exfalso
          apply hcond
          rcases hchar with h | h <;>
            simp [hal, hlen, h]

/-- Witness for C7: a candidate preceded by the Latin letter a is rejected. -/
theorem C7_context_check_rejects_witness :
    parseAndVerify envC7 menvBase textC7 [] Leniency.valid ['5'] 1
      defaultPhoneMatch = (false, defaultPhoneMatch) :=
  ((C7_context_check_rejects envC7 menvBase textC7 [] Leniency.valid ['5'] 1
      defaultPhoneMatch rfl).1) (by decide) rfl (Or.inl (by decide))

/- ## Counterexamples -/

/-- C1 counterexample: a Find call that produces a match on its first
candidate leaves max_tries unchanged (5 stays 5) while one candidate was
attempted, so the decrease in max_tries (0) is not the number of candidates
attempted (1): an accepted candidate consumes no unit of max_tries. -/
theorem C1_accepted_candidate_consumes_nothing :
    (findFrom envC1 menvBase textC1 [] Leniency.possible 0 5 defaultPhoneMatch).1 =
      true ∧
    (findFrom envC1 menvBase textC1 [] Leniency.possible 0 5
        defaultPhoneMatch).2.2.1 = 5 ∧
    (findFrom envC1 menvBase textC1 [] Leniency.possible 0 5
        defaultPhoneMatch).2.2.2 = 1 ∧
    ¬((5 : Int) -
        (findFrom envC1 menvBase textC1 [] Leniency.possible 0 5
          defaultPhoneMatch).2.2.1 =
      ((findFrom envC1 menvBase textC1 [] Leniency.possible 0 5
          defaultPhoneMatch).2.2.2 : Int)) := by
  decide

/-- C2 counterexample: a matcher constructed with max_tries = 1 (non-negative)
reaches max_tries = -2 after a single has_next call, through the two
unconditional inner-match peeling decrements followed by the Find loop
decrement. -/
theorem C2_maxTries_goes_negative :
    (runOps envC2 menvBase textC2 [] Leniency.valid [MOp.callHasNext]
        (initMatcher 1)).maxTries = -2 := by
  decide

/-- C5 counterexample: a candidate accepted by the EXACT_GROUPING verification
while the STRICT_GROUPING verification rejects it, so the EXACT_GROUPING match
set is not contained in the STRICT_GROUPING match set. -/
theorem C5_exact_accepts_strict_rejects :
    verifyAccordingToLeniency envC5 menvBase Leniency.exactGrouping numberC5
        candC5 = true ∧
    verifyAccordingToLeniency envC5 menvBase Leniency.strictGrouping numberC5
        candC5 = false := by
  decide

/-- C8 counterexample: ContainsOnlyValidXChars accepts the candidate xx5 when
its carrier-pair check succeeds, even though the second x - an x occurrence
that is not the final character - fails the stated per-occurrence rule (its
extension comparison fails), so acceptance is not equivalent to every
non-final x occurrence being valid. -/
theorem C8_second_x_of_pair_not_revalidated :
    containsOnlyValidXChars envC8 defaultNumber candC8 = true ∧
    claimAllXOccurrencesOK envC8 defaultNumber candC8 = false := by
  decide

/- ## Stepping lemmas for the Find loop and the iterator -/

theorem findLoop_zero (env : Env) (menv : MetaEnv) (text region : Str)
    (leniency : Leniency) (rem : Str) (mt : Int) (m0 : PhoneMatch) :
    findLoop env menv text region leniency 0 rem mt m0 = (false, m0, mt, 0) := rfl

theorem findLoop_nonpos (env : Env) (menv : MetaEnv) (text region : Str)
    (leniency : Leniency) (fuel : Nat) (rem : Str) (mt : Int) (m0 : PhoneMatch)
    (h : ¬0 < mt) :
    findLoop env menv text region leniency fuel rem mt m0 = (false, m0, mt, 0) := by
  cases fuel with
  | zero => rfl
  | succ fuel => simp [findLoop, h]

theorem findLoop_none (env : Env) (menv : MetaEnv) (text region : Str)
    (leniency : Leniency) (fuel : Nat) (rem : Str) (mt : Int) (m0 : PhoneMatch)
    (h : 0 < mt) (hfp : env.findPhone rem = none) :
    findLoop env menv text region leniency (fuel + 1) rem mt m0 =
      (false, m0, mt, 0) := by
  simp [findLoop, h, hfp]

theorem findLoop_some (env : Env) (menv : MetaEnv) (text region : Str)
    (leniency : Leniency) (fuel : Nat) (rem : Str) (mt : Int) (m0 : PhoneMatch)
    (c0 rem2 : Str) (h : 0 < mt) (hfp : env.findPhone rem = some (c0, rem2)) :
    findLoop env menv text region leniency (fuel + 1) rem mt m0 =
      (if (extractMatch env menv text region leniency
            (env.captureUpToSecondNumberStart c0)
            (text.length - rem2.length - c0.length) m0 mt).1 then
        (true,
         (extractMatch env menv text region leniency
            (env.captureUpToSecondNumberStart c0)
            (text.length - rem2.length - c0.length) m0 mt).2.1,
         (extractMatch env menv text region leniency
            (env.captureUpToSecondNumberStart c0)
            (text.length - rem2.length - c0.length) m0 mt).2.2, 1)
      else
        ((findLoop env menv text region leniency fuel rem2
            ((extractMatch env menv text region leniency
               (env.captureUpToSecondNumberStart c0)
               (text.length - rem2.length - c0.length) m0 mt).2.2 - 1)
            ((extractMatch env menv text region leniency
               (env.captureUpToSecondNumberStart c0)
               (text.length - rem2.length - c0.length) m0 mt).2.1)).1,
         (findLoop env menv text region leniency fuel rem2
            ((extractMatch env menv text region leniency
               (env.captureUpToSecondNumberStart c0)
               (text.length - rem2.length - c0.length) m0 mt).2.2 - 1)
            ((extractMatch env menv text region leniency
               (env.captureUpToSecondNumberStart c0)
               (text.length - rem2.length - c0.length) m0 mt).2.1)).2.1,
         (findLoop env menv text region leniency fuel rem2
            ((extractMatch env menv text region leniency
               (env.captureUpToSecondNumberStart c0)
               (text.length - rem2.length - c0.length) m0 mt).2.2 - 1)
            ((extractMatch env menv text region leniency
               (env.captureUpToSecondNumberStart c0)
               (text.length - rem2.length - c0.length) m0 mt).2.1)).2.2.1,
         (findLoop env menv text region leniency fuel rem2
            ((extractMatch env menv text region leniency
               (env.captureUpToSecondNumberStart c0)
               (text.length - rem2.length - c0.length) m0 mt).2.2 - 1)
            ((extractMatch env menv text region leniency
               (env.captureUpToSecondNumberStart c0)
               (text.length - rem2.length - c0.length) m0 mt).2.1)).2.2.2 + 1)) := by
  simp only [findLoop, if_pos h, hfp]

theorem hasNext_ready (env : Env) (menv : MetaEnv) (text region : Str)
    (leniency : Leniency) (s : MatcherS) (hs : s.state = MState.ready) :
    hasNext env menv text region leniency s = (true, s) := by
  simp [hasNext, hs]

theorem hasNext_done (env : Env) (menv : MetaEnv) (text region : Str)
    (leniency : Leniency) (s : MatcherS) (hs : s.state = MState.done) :
    hasNext env menv text region leniency s = (false, s) := by
  simp [hasNext, hs]

theorem hasNext_found (env : Env) (menv : MetaEnv) (text region : Str)
    (leniency : Leniency) (s : MatcherS) (m : PhoneMatch) (mt : Int) (n : Nat)
    (hs : s.state = MState.notReady)
    (hr : findFrom env menv text region leniency s.searchIndex s.maxTries
        defaultPhoneMatch = (true, m, mt, n)) :
    hasNext env menv text region leniency s =
      (true, ⟨mt, MState.ready, some m, m.endPos⟩) := by
  rw [hasNext, if_pos hs, hr]
  rfl

theorem hasNext_notFound (env : Env) (menv : MetaEnv) (text region : Str)
    (leniency : Leniency) (s : MatcherS) (m : PhoneMatch) (mt : Int) (n : Nat)
    (hs : s.state = MState.notReady)
    (hr : findFrom env menv text region leniency s.searchIndex s.maxTries
        defaultPhoneMatch = (false, m, mt, n)) :
    hasNext env menv text region leniency s =
      (false, ⟨mt, MState.done, s.lastMatch, s.searchIndex⟩) := by
  rw [hasNext, if_pos hs, hr]
  rfl

/- ## C9: in-bounds indexing in EXACT_GROUPING -/

theorem atI_isSome_of_lt (l : List Str) (i : Int) (h0 : 0 ≤ i)
    (h1 : i < (l.length : Int)) : (atI l i).isSome = true := by
  unfold atI
  rw [if_pos h0]
  have hi : i.toNat < l.length := by omega
  simp [List.getElem?_eq_getElem hi]

theorem exactTail_isSome (cgroups fgroups : List Str) (cidx : Int)
    (h2 : cidx < (cgroups.length : Int)) (h3 : fgroups ≠ []) :
    (exactTail cgroups fgroups cidx).isSome = true := by
  unfold exactTail
  split
  · next hc =>
    have hcg := atI_isSome_of_lt cgroups cidx hc h2
    have hf0 : fgroups[0]?.isSome = true := by
      cases fgroups with
      | nil => cases h3 rfl
      | cons a l => simp
    rcases Option.isSome_iff_exists.mp hcg with ⟨cg, hcg2⟩
    rcases Option.isSome_iff_exists.mp hf0 with ⟨f0, hf02⟩
    rw [hcg2, hf02]
    rfl
  · rfl

theorem exactLoop_isSome (cgroups fgroups : List Str) :
    ∀ (fidx : Nat) (cidx : Int), fidx < fgroups.length →
      cidx < (cgroups.length : Int) → fgroups ≠ [] →
      (exactLoop cgroups fgroups fidx cidx).isSome = true := by
  intro fidx
  induction fidx with
  | zero =>
    intro cidx h1 h2 h3
    exact exactTail_isSome cgroups fgroups cidx h2 h3
  | succ fidx ih =>
    intro cidx h1 h2 h3
    unfold exactLoop
    split
    · next hc =>
      have hcg := atI_isSome_of_lt cgroups cidx hc h2
      have hfg : fgroups[fidx + 1]?.isSome = true := by
        simp [List.getElem?_eq_getElem h1]
      split
      · split
        · refine ih (cidx - 1) ?_ ?_ h3 <;> omega
        · rfl
      · next v heqa heqb => rw [heqb] at hfg; cases hfg
      · next x heqa => rw [heqa] at hcg; cases hcg
    · rfl

/-- C9: in the EXACT_GROUPING verification all vector indexing stays in
bounds for every candidate that reaches it (one with at least one digit run,
against a number whose canonical format has at least one group): the length-one
short-circuit is evaluated before candidate_groups is indexed at tail_index, so
a single digit group with an extension (tail_index = -1) causes no
out-of-bounds access, and the reverse lock-step walk only reads indices that
are in range - the embedded check never returns the `none` that models an
out-of-bounds vector::at abort. -/
theorem C9_exact_grouping_in_bounds :
    ∀ (env : Env) (number : PhoneNumber) (candidate : Str),
      digitRuns (env.normalizeDecimalDigits candidate) ≠ [] →
      getNationalNumberGroups env number ≠ [] →
      (exactGroupingCheckOpt env number candidate).isSome = true := by
  intro env number candidate hcg hfg
  have hflen : 1 ≤ (getNationalNumberGroups env number).length := by
    cases h : getNationalNumberGroups env number with
    | nil => cases hfg h
    | cons a l => simp
  simp only [exactGroupingCheckOpt]
  split
  · rfl
  · next hne =>
    have hlen : 1 ≤ (digitRuns (env.normalizeDecimalDigits candidate)).length := by
      cases h : digitRuns (env.normalizeDecimalDigits candidate) with
      | nil => cases hcg h
      | cons a l => simp
    have hlen2 : 2 ≤ (digitRuns (env.normalizeDecimalDigits candidate)).length := by
      omega
    have htail0 : (0 : Int) ≤
        (if number.extension.isSome then
          ((digitRuns (env.normalizeDecimalDigits candidate)).length : Int) - 2
        else ((digitRuns (env.normalizeDecimalDigits candidate)).length : Int) - 1) := by
      split <;> omega
    have htail1 :
        (if number.extension.isSome then
          ((digitRuns (env.normalizeDecimalDigits candidate)).length : Int) - 2
        else ((digitRuns (env.normalizeDecimalDigits candidate)).length : Int) - 1) <
        ((digitRuns (env.normalizeDecimalDigits candidate)).length : Int) := by
      split <;> omega
    have hat := atI_isSome_of_lt _ _ htail0 htail1
    split
    · next heqa => rw [heqa] at hat; cases hat
    · next tg heqa =>
      split
      · rfl
      · exact exactLoop_isSome _ _ _ _ (by omega) htail1 hfg

/-- Witness for C9 at a concrete candidate with two digit groups. -/
theorem C9_exact_grouping_in_bounds_witness :
    (exactGroupingCheckOpt envC9 defaultNumber ['3', '4', ' ', '5']).isSome = true :=
  C9_exact_grouping_in_bounds envC9 defaultNumber ['3', '4', ' ', '5']
    (by decide) (by decide)

/- ## Budget accounting in ExtractInnerMatch, ExtractMatch and Find -/

theorem extractInnerMatch_mt_le (env : Env) (menv : MetaEnv) (text region : Str)
    (leniency : Leniency) (candidate : Str) (offset : Nat) (m0 : PhoneMatch)
    (mt : Int) :
    (extractInnerMatch env menv text region leniency candidate offset m0 mt).2.2 ≤
      mt := by
  unfold extractInnerMatch
  dsimp only
  repeat' split
  all_goals dsimp only
  all_goals omega

theorem extractInnerMatch_mt_lb (env : Env) (menv : MetaEnv) (text region : Str)
    (leniency : Leniency) (candidate : Str) (offset : Nat) (m0 : PhoneMatch)
    (mt : Int) (h : 1 ≤ mt) :
    -1 ≤ (extractInnerMatch env menv text region leniency candidate offset m0
      mt).2.2 := by
  unfold extractInnerMatch
  dsimp only
  repeat' split
  all_goals dsimp only
  all_goals omega

theorem extractMatch_mt_le (env : Env) (menv : MetaEnv) (text region : Str)
    (leniency : Leniency) (candidate : Str) (offset : Nat) (m0 : PhoneMatch)
    (mt : Int) :
    (extractMatch env menv text region leniency candidate offset m0 mt).2.2 ≤
      mt := by
  unfold extractMatch
  dsimp only
  repeat' split
  all_goals first
    | (dsimp only; omega)
    | apply extractInnerMatch_mt_le

theorem extractMatch_mt_lb (env : Env) (menv : MetaEnv) (text region : Str)
    (leniency : Leniency) (candidate : Str) (offset : Nat) (m0 : PhoneMatch)
    (mt : Int) (h : 1 ≤ mt) :
    -1 ≤ (extractMatch env menv text region leniency candidate offset m0 mt).2.2 := by
  unfold extractMatch
  dsimp only
  repeat' split
  all_goals first
    | (dsimp only; omega)
    | (apply extractInnerMatch_mt_lb _ _ _ _ _ _ _ _ _ h)

theorem findLoop_mt_bounds (env : Env) (menv : MetaEnv) (text region : Str)
    (leniency : Leniency) :
    ∀ (fuel : Nat) (rem : Str) (mt : Int) (m0 : PhoneMatch), -2 ≤ mt →
      -2 ≤ (findLoop env menv text region leniency fuel rem mt m0).2.2.1 ∧
      (findLoop env menv text region leniency fuel rem mt m0).2.2.1 ≤ mt := by
  intro fuel
  induction fuel with
  | zero => intro rem mt m0 h; exact ⟨h, le_rfl⟩
  | succ fuel ih =>
    intro rem mt m0 h
    by_cases hmt : 0 < mt
    · cases hfp : env.findPhone rem with
      | none =>
        rw [findLoop_none env menv text region leniency fuel rem mt m0 hmt hfp]
        exact ⟨h, le_rfl⟩
      | some pr =>
        obtain ⟨c0, rem2⟩ := pr
        rw [findLoop_some env menv text region leniency fuel rem mt m0 c0 rem2
          hmt hfp]
        have hle := extractMatch_mt_le env menv text region leniency
          (env.captureUpToSecondNumberStart c0)
          (text.length - rem2.length - c0.length) m0 mt
        have hlb := extractMatch_mt_lb env menv text region leniency
          (env.captureUpToSecondNumberStart c0)
          (text.length - rem2.length - c0.length) m0 mt (by omega)
        split
        · constructor <;> dsimp only <;> omega
        · have hrec := ih rem2
            ((extractMatch env menv text region leniency
              (env.captureUpToSecondNumberStart c0)
              (text.length - rem2.length - c0.length) m0 mt).2.2 - 1)
            ((extractMatch env menv text region leniency
              (env.captureUpToSecondNumberStart c0)
              (text.length - rem2.length - c0.length) m0 mt).2.1)
            (by omega)
          constructor <;> dsimp only <;> omega
    · rw [findLoop_nonpos env menv text region leniency (fuel + 1) rem mt m0 hmt]
      exact ⟨h, le_rfl⟩

theorem hasNext_mt_lb (env : Env) (menv : MetaEnv) (text region : Str)
    (leniency : Leniency) (s : MatcherS) (h : -2 ≤ s.maxTries) :
    -2 ≤ ((hasNext env menv text region leniency s).2).maxTries := by
  cases hs : s.state with
  | notReady =>
    have hb := findLoop_mt_bounds env menv text region leniency
      s.maxTries.toNat (text.drop s.searchIndex) s.maxTries defaultPhoneMatch h
    rcases hr : findFrom env menv text region leniency s.searchIndex s.maxTries
        defaultPhoneMatch with ⟨b, m, mt, n⟩
    have hmt : (findFrom env menv text region leniency s.searchIndex s.maxTries
        defaultPhoneMatch).2.2.1 = mt := by rw [hr]
    rw [findFrom] at hmt
    cases b with
    | true =>
      rw [hasNext_found env menv text region leniency s m mt n hs hr]
      dsimp only
      omega
    | false =>
      rw [hasNext_notFound env menv text region leniency s m mt n hs hr]
      dsimp only
      omega
  | ready => rw [hasNext_ready env menv text region leniency s hs]; exact h
  | done => rw [hasNext_done env menv text region leniency s hs]; exact h

theorem stepOp_mt_lb (env : Env) (menv : MetaEnv) (text region : Str)
    (leniency : Leniency) (s : MatcherS) (op : MOp) (h : -2 ≤ s.maxTries) :
    -2 ≤ (stepOp env menv text region leniency s op).maxTries := by
  cases op with
  | callHasNext => exact hasNext_mt_lb env menv text region leniency s h
  | callNext =>
    have hh := hasNext_mt_lb env menv text region leniency s h
    simp only [stepOp, nextCall]
    split
    · exact hh
    · exact hh

theorem runOps_mt_lb (env : Env) (menv : MetaEnv) (text region : Str)
    (leniency : Leniency) :
    ∀ (ops : List MOp) (s : MatcherS), -2 ≤ s.maxTries →
      -2 ≤ (runOps env menv text region leniency ops s).maxTries := by
  intro ops
  induction ops with
  | nil => intro s h; exact h
  | cons op ops ih =>
    intro s h
    exact ih _ (stepOp_mt_lb env menv text region leniency s op h)

/-- C2 amended: for a matcher constructed with a non-negative max_tries, the
counter can become negative through the inner-match peeling decrements (the
counterexample reaches -2), but it stays bounded: after any sequence of
has_next/next calls, max_tries is at least -2; the spec's claimed invariant
max_tries greater or equal 0 holds weakened to max_tries greater or equal -2. -/
theorem C2_maxTries_bounded :
    ∀ (env : Env) (menv : MetaEnv) (text region : Str) (leniency : Leniency)
      (ops : List MOp) (mt : Int), 0 ≤ mt →
      -2 ≤ (runOps env menv text region leniency ops (initMatcher mt)).maxTries := by
  intro env menv text region leniency ops mt h
  exact runOps_mt_lb env menv text region leniency ops (initMatcher mt)
    (show (-2 : Int) ≤ mt by omega)

/-- Witness for the amended C2 bound at a concrete matcher. -/
theorem C2_maxTries_bounded_witness :
    -2 ≤ (runOps envBase menvBase [] [] Leniency.valid [MOp.callHasNext]
      (initMatcher 5)).maxTries :=
  C2_maxTries_bounded envBase menvBase [] [] Leniency.valid [MOp.callHasNext] 5
    (by decide)

/- ## C1 amended: budget accounting per candidate -/

theorem extractInnerMatch_sep_none (env : Env) (menv : MetaEnv)
    (text region : Str) (leniency : Leniency) (candidate : Str) (offset : Nat)
    (m0 : PhoneMatch) (mt : Int)
    (h : env.groupSeparatorConsume candidate = none) :
    extractInnerMatch env menv text region leniency candidate offset m0 mt =
      (false, m0, mt) := by
  unfold extractInnerMatch
  rw [h]

theorem extractMatch_sep_none (env : Env) (menv : MetaEnv) (text region : Str)
    (leniency : Leniency) (candidate : Str) (offset : Nat) (m0 : PhoneMatch)
    (mt : Int) (hsep : ∀ s, env.groupSeparatorConsume s = none) :
    (extractMatch env menv text region leniency candidate offset m0 mt).2.2 =
      mt := by
  unfold extractMatch
  dsimp only
  repeat' split
  all_goals first
    | rfl
    | (rw [extractInnerMatch_sep_none env menv text region leniency candidate
        offset _ mt (hsep candidate)])

theorem findLoop_budget (env : Env) (menv : MetaEnv) (text region : Str)
    (leniency : Leniency) (hsep : ∀ s, env.groupSeparatorConsume s = none) :
    ∀ (fuel : Nat) (rem : Str) (mt : Int) (m0 : PhoneMatch),
      ((findLoop env menv text region leniency fuel rem mt m0).1 = true →
        mt - (findLoop env menv text region leniency fuel rem mt m0).2.2.1 =
          ((findLoop env menv text region leniency fuel rem mt m0).2.2.2 : Int) - 1) ∧
      ((findLoop env menv text region leniency fuel rem mt m0).1 = false →
        mt - (findLoop env menv text region leniency fuel rem mt m0).2.2.1 =
          ((findLoop env menv text region leniency fuel rem mt m0).2.2.2 : Int)) := by
  intro fuel
  induction fuel with
  | zero =>
    intro rem mt m0
    constructor
    · intro h; rw [findLoop_zero] at h; simp at h
    · intro _; rw [findLoop_zero]; dsimp only; omega
  | succ fuel ih =>
    intro rem mt m0
    by_cases hmt : 0 < mt
    · cases hfp : env.findPhone rem with
      | none =>
        constructor <;> intro h <;>
          rw [findLoop_none env menv text region leniency fuel rem mt m0 hmt hfp]
            at h ⊢
        · simp at h
        · dsimp only; omega
      | some pr =>
        obtain ⟨c0, rem2⟩ := pr
        have hr22 : (extractMatch env menv text region leniency
            (env.captureUpToSecondNumberStart c0)
            (text.length - rem2.length - c0.length) m0 mt).2.2 = mt :=
          extractMatch_sep_none env menv text region leniency _ _ _ _ hsep
        obtain ⟨iht, ihf⟩ := ih rem2
          ((extractMatch env menv text region leniency
            (env.captureUpToSecondNumberStart c0)
            (text.length - rem2.length - c0.length) m0 mt).2.2 - 1)
          ((extractMatch env menv text region leniency
            (env.captureUpToSecondNumberStart c0)
            (text.length - rem2.length - c0.length) m0 mt).2.1)
        rw [findLoop_some env menv text region leniency fuel rem mt m0 c0 rem2
          hmt hfp]
        split
        · constructor <;> intro h <;> dsimp only at h ⊢
          · rw [hr22]; omega
          · simp at h
        · constructor <;> intro h <;> dsimp only at h ⊢
          · have := iht h; omega
          · have := ihf h; omega
    · constructor <;> intro h <;>
        rw [findLoop_nonpos env menv text region leniency (fuel + 1) rem mt m0
          hmt] at h ⊢
      · simp at h
      · dsimp only; omega

/-- C1 amended: a candidate that is attempted and rejected consumes exactly
one unit of max_tries at the top level of Find (inner-match peeling, when a
group separator is present, consumes further units), while a candidate that
is accepted and emitted as the match consumes none.  Hence in any Find call
whose candidates contain no group separator, the decrease in max_tries equals
the number of candidates attempted minus one when a match is emitted, and
exactly the number of candidates attempted when the scan exhausts. -/
theorem C1_budget_per_candidate :
    ∀ (env : Env) (menv : MetaEnv) (text region : Str) (leniency : Leniency),
      (∀ s, env.groupSeparatorConsume s = none) →
      ∀ (index : Nat) (mt : Int) (m0 : PhoneMatch),
        ((findFrom env menv text region leniency index mt m0).1 = true →
          mt - (findFrom env menv text region leniency index mt m0).2.2.1 =
            ((findFrom env menv text region leniency index mt m0).2.2.2 : Int) - 1) ∧
        ((findFrom env menv text region leniency index mt m0).1 = false →
          mt - (findFrom env menv text region leniency index mt m0).2.2.1 =
            ((findFrom env menv text region leniency index mt m0).2.2.2 : Int)) := by
  intro env menv text region leniency hsep index mt m0
  exact findLoop_budget env menv text region leniency hsep mt.toNat
    (text.drop index) mt m0

/-- Witness for the amended C1 at a Find call that emits a match after one
attempted candidate. -/
theorem C1_budget_per_candidate_witness :
    (5 : Int) - (findFrom envC1 menvBase textC1 [] Leniency.possible 0 5
        defaultPhoneMatch).2.2.1 =
      ((findFrom envC1 menvBase textC1 [] Leniency.possible 0 5
        defaultPhoneMatch).2.2.2 : Int) - 1 :=
  (C1_budget_per_candidate envC1 menvBase textC1 [] Leniency.possible
      (fun _ => rfl) 0 5 defaultPhoneMatch).1 (by decide)

/- ## C5 amended: the provable leniency implications -/

/-- C5 amended: at the verification level STRICT_GROUPING acceptance implies
VALID acceptance and EXACT_GROUPING acceptance implies VALID acceptance (each
stricter tier checks all of VALID's predicates before its grouping check), and
when the validity collaborator is monotone (every valid number is possible,
the spec's "monotonically strict" reading of the enumeration) VALID acceptance
implies POSSIBLE acceptance.  EXACT_GROUPING acceptance does not imply
STRICT_GROUPING acceptance - the two grouping algorithms are incomparable (see
the counterexample) - and POSSIBLE's match set need not strictly contain
VALID's (on an empty text both are empty). -/
theorem C5_leniency_implications :
    ∀ (env : Env) (menv : MetaEnv) (number : PhoneNumber) (candidate : Str),
      (verifyAccordingToLeniency env menv Leniency.strictGrouping number
          candidate = true →
        verifyAccordingToLeniency env menv Leniency.valid number candidate =
          true) ∧
      (verifyAccordingToLeniency env menv Leniency.exactGrouping number
          candidate = true →
        verifyAccordingToLeniency env menv Leniency.valid number candidate =
          true) ∧
      ((∀ n, env.isValidNumber n = true → env.isPossibleNumber n = true) →
        verifyAccordingToLeniency env menv Leniency.valid number candidate =
          true →
        verifyAccordingToLeniency env menv Leniency.possible number candidate =
          true) := by
  intro env menv number candidate
  refine ⟨?_, ?_, ?_⟩
  · intro h
    simp only [verifyAccordingToLeniency] at h ⊢
    by_cases h1 : env.isValidNumber number = true <;>
      by_cases h2 : containsOnlyValidXChars env number candidate = true <;>
      by_cases h3 : isNationalPrefixPresentIfRequired env menv number = true <;>
      simp [h1, h2, h3] at h ⊢
  · intro h
    simp only [verifyAccordingToLeniency] at h ⊢
    by_cases h1 : env.isValidNumber number = true <;>
      by_cases h2 : containsOnlyValidXChars env number candidate = true <;>
      by_cases h3 : isNationalPrefixPresentIfRequired env menv number = true <;>
      simp [h1, h2, h3] at h ⊢
  · intro hmono h
    simp only [verifyAccordingToLeniency] at h ⊢
    by_cases h1 : env.isValidNumber number = true
    · exact hmono number h1
    · simp [h1] at h

/-- Witness for the amended C5: a concrete candidate accepted at
STRICT_GROUPING is accepted at VALID, and then at POSSIBLE under a monotone
validity oracle. -/
theorem C5_leniency_implications_witness :
    verifyAccordingToLeniency envBase menvBase Leniency.valid defaultNumber
        ['5'] = true ∧
    verifyAccordingToLeniency envBase menvBase Leniency.possible defaultNumber
        ['5'] = true :=
  ⟨(C5_leniency_implications envBase menvBase defaultNumber ['5']).1 (by decide),
   (C5_leniency_implications envBase menvBase defaultNumber ['5']).2.2
     (fun _ _ => rfl) (by decide)⟩

/- ## C8 amended: the scan equivalence for ContainsOnlyValidXChars -/

theorem findXFrom_of_ge (s : Str) (p : Nat) (h : s.length ≤ p) :
    findXFrom s p = none := by
  unfold findXFrom
  have h0 : s.length - p = 0 := by omega
  rw [h0]
  rfl

theorem findXFrom_hit (s : Str) (p : Nat) (hp : p < s.length)
    (hx : isXChar (s.getD p ' ') = true) : findXFrom s p = some p := by
  unfold findXFrom
  have h1 : s.length - p = (s.length - (p + 1)) + 1 := by omega
  rw [h1, findXGo, if_pos hp, if_pos hx]

theorem findXFrom_step (s : Str) (p : Nat) (hp : p < s.length)
    (hx : isXChar (s.getD p ' ') = false) :
    findXFrom s p = findXFrom s (p + 1) := by
  unfold findXFrom
  have h1 : s.length - p = (s.length - (p + 1)) + 1 := by omega
  rw [h1, findXGo, if_pos hp, if_neg (by rw [hx]; exact Bool.false_ne_true)]

theorem xCharsLoop_eq_specXScan (env : Env) (number : PhoneNumber) (cand : Str) :
    ∀ (f2 p f1 : Nat),
      cand.length + 1 ≤ p + f1 → cand.length + 1 ≤ p + f2 →
      xCharsLoop env number cand f1 (findXFrom cand p) =
        specXScan env number cand f2 p := by
  intro f2
  induction f2 with
  | zero =>
    intro p f1 h1 h2
    rw [findXFrom_of_ge cand p (by omega)]
    cases f1 <;> rfl
  | succ f2 ih =>
    intro p f1 h1 h2
    by_cases hp : p + 1 < cand.length
    · by_cases hx : isXChar (cand.getD p ' ') = true
      · rw [findXFrom_hit cand p (by omega) hx]
        cases f1 with
        | zero => exact absurd h1 (by omega)
        | succ f1 =>
          simp only [xCharsLoop, specXScan]
          rw [if_pos hp, if_pos hp, if_pos hx]
          by_cases hx1 : isXChar (cand.getD (p + 1) ' ') = true
          · rw [if_pos hx1, if_pos hx1]
            by_cases hnsn : env.isNumberMatchNSN number (cand.drop (p + 1)) = true
            · rw [if_pos hnsn, hnsn, Bool.true_and]
              exact ih (p + 2) f1 (by omega) (by omega)
            · have hnsn2 : env.isNumberMatchNSN number (cand.drop (p + 1)) =
                  false := by simpa using hnsn
              rw [if_neg hnsn, hnsn2, Bool.false_and]
          · rw [if_neg hx1, if_neg hx1]
            by_cases hext : env.normalizeDigitsOnly (cand.drop p) =
                extensionStr number
            · rw [if_pos hext, decide_eq_true hext, Bool.true_and]
              exact ih (p + 1) f1 (by omega) (by omega)
            · rw [if_neg hext, decide_eq_false hext, Bool.false_and]
      · have hx2 : isXChar (cand.getD p ' ') = false := by simpa using hx
        rw [findXFrom_step cand p (by omega) hx2]
        have hrhs : specXScan env number cand (f2 + 1) p =
            specXScan env number cand f2 (p + 1) := by
          simp only [specXScan]
          rw [if_pos hp, if_neg hx]
        rw [hrhs]
        exact ih (p + 1) f1 (by omega) (by omega)
    · have hrhs : specXScan env number cand (f2 + 1) p = true := by
        simp only [specXScan]
        rw [if_neg hp]
      rw [hrhs]
      by_cases hpl : p < cand.length
      · by_cases hx : isXChar (cand.getD p ' ') = true
        · rw [findXFrom_hit cand p hpl hx]
          cases f1 with
          | zero => rfl
          | succ f1 =>
            simp only [xCharsLoop]
            rw [if_neg hp]
        · have hx2 : isXChar (cand.getD p ' ') = false := by simpa using hx
          rw [findXFrom_step cand p hpl hx2]
          rw [findXFrom_of_ge cand (p + 1) (by omega)]
          cases f1 <;> rfl
      · rw [findXFrom_of_ge cand p (by omega)]
        cases f1 <;> rfl

/-- C8 amended: ContainsOnlyValidXChars accepts a candidate iff the
left-to-right scan written from the specification accepts it: each scanned
ASCII x/X that is not the final character is valid under the carrier-pair or
extension rule, with scanning continuing from the character after the
processed x (so the second x of a carrier pair is skipped, not itself
re-validated); a trailing x/X as the final character is ignored. -/
theorem C8_xchars_scan_equiv :
    ∀ (env : Env) (number : PhoneNumber) (cand : Str),
      containsOnlyValidXChars env number cand =
        specContainsOnlyValidX env number cand := by
  intro env number cand
  unfold containsOnlyValidXChars specContainsOnlyValidX
  exact xCharsLoop_eq_specXScan env number cand (cand.length + 1) 0
    (cand.length + 1) (by omega) (by omega)

/- ## C3: emitted matches are ordered and non-overlapping -/

theorem PhoneMatch.endPos_eq (m : PhoneMatch) :
    m.endPos = m.start + m.rawString.length := rfl

theorem matchingBrackets_ne_nil (env : Env) (hwf : EnvWF env) (c : Str)
    (h : env.matchingBrackets c = true) : c ≠ [] := by
  intro hc
  rw [hc, hwf.brackets_empty] at h
  cases h

/-- Every match produced by ExtractInnerMatch starts at or after the
candidate's offset, ends within the candidate's byte range, and has a
non-empty raw string. -/
theorem extractInnerMatch_emit (env : Env) (menv : MetaEnv) (text region : Str)
    (leniency : Leniency) (hwf : EnvWF env) (cand : Str) (off : Nat)
    (m0 : PhoneMatch) (mt : Int)
    (h : (extractInnerMatch env menv text region leniency cand off m0 mt).1 =
      true) :
    off ≤ (extractInnerMatch env menv text region leniency cand off m0
        mt).2.1.start ∧
    (extractInnerMatch env menv text region leniency cand off m0
        mt).2.1.endPos ≤ off + cand.length ∧
    (extractInnerMatch env menv text region leniency cand off m0
        mt).2.1.rawString ≠ [] := by
  unfold extractInnerMatch at h ⊢
  cases hsep : env.groupSeparatorConsume cand with
  | none => rw [hsep] at h; simp at h
  | some rest =>
    rw [hsep] at h
    have hrest := hwf.groupSep_length cand rest hsep
    try simp only [Bool.false_eq_true, eq_self_iff_true, if_true, if_false] at h
    try simp only [Bool.false_eq_true, eq_self_iff_true, if_true, if_false]
    try dsimp only at h
    try dsimp only
    rcases parseAndVerify_cases env menv text region leniency
        (env.trimUnwantedEndChars (cand.take (cand.length - rest.length))) off
        m0 with hc1 | ⟨n1, hp1, hv1, hb1, hc1⟩
    · rw [hc1] at h ⊢
      try simp only [Bool.false_eq_true, eq_self_iff_true, if_true, if_false] at h
      try simp only [Bool.false_eq_true, eq_self_iff_true, if_true, if_false]
      try dsimp only at h
      try dsimp only
      rcases parseAndVerify_cases env menv text region leniency
          (env.trimUnwantedEndChars rest) (off + (cand.length - rest.length))
          m0 with hc2 | ⟨n2, hp2, hv2, hb2, hc2⟩
      · rw [hc2] at h ⊢
        try simp only [Bool.false_eq_true, eq_self_iff_true, if_true, if_false] at h
        try simp only [Bool.false_eq_true, eq_self_iff_true, if_true, if_false]
        try dsimp only at h
        try dsimp only
        by_cases hmt2 : (0 : Int) < mt - 1 - 1
        · rw [if_pos hmt2] at h ⊢
          by_cases heq :
              env.trimUnwantedEndChars
                (cand.take (cand.length - (iterSep env rest.length rest).length)) =
              env.trimUnwantedEndChars (cand.take (cand.length - rest.length))
          · rw [if_pos heq] at h; simp at h
          · rw [if_neg heq] at h ⊢
            rcases parseAndVerify_cases env menv text region leniency
                (env.trimUnwantedEndChars
                  (cand.take (cand.length - (iterSep env rest.length rest).length)))
                off m0 with hc3 | ⟨n3, hp3, hv3, hb3, hc3⟩
            · rw [hc3] at h; simp at h
            · rw [hc3] at h ⊢
              try simp only [Bool.false_eq_true, eq_self_iff_true, if_true, if_false] at h
              try simp only [Bool.false_eq_true, eq_self_iff_true, if_true, if_false]
              try dsimp only at h
              try dsimp only
              refine ⟨Nat.le_refl off, ?_, ?_⟩
              · rw [PhoneMatch.endPos_eq]
                have h1 := hwf.trim_length
                  (cand.take (cand.length - (iterSep env rest.length rest).length))
                have h2 : (cand.take
                    (cand.length - (iterSep env rest.length rest).length)).length ≤
                    cand.length := by
                  rw [List.length_take]
                  exact Nat.min_le_right _ _
                try dsimp only
                omega
              · exact matchingBrackets_ne_nil env hwf _ hb3
        · rw [if_neg hmt2] at h; simp at h
      · rw [hc2] at h ⊢
        try simp only [Bool.false_eq_true, eq_self_iff_true, if_true, if_false] at h
        try simp only [Bool.false_eq_true, eq_self_iff_true, if_true, if_false]
        try dsimp only at h
        try dsimp only
        refine ⟨Nat.le_add_right off _, ?_, ?_⟩
        · rw [PhoneMatch.endPos_eq]
          have h1 := hwf.trim_length rest
          try dsimp only
          omega
        · exact matchingBrackets_ne_nil env hwf _ hb2
    · rw [hc1] at h ⊢
      try simp only [Bool.false_eq_true, eq_self_iff_true, if_true, if_false] at h
      try simp only [Bool.false_eq_true, eq_self_iff_true, if_true, if_false]
      try dsimp only at h
      try dsimp only
      refine ⟨Nat.le_refl off, ?_, ?_⟩
      · rw [PhoneMatch.endPos_eq]
        have h1 := hwf.trim_length (cand.take (cand.length - rest.length))
        have h2 : (cand.take (cand.length - rest.length)).length ≤ cand.length := by
          rw [List.length_take]
          exact Nat.min_le_right _ _
        try dsimp only
        omega
      · exact matchingBrackets_ne_nil env hwf _ hb1

/-- Every match produced by ExtractMatch starts at or after the candidate's
offset, ends within the candidate's byte range, and has a non-empty raw
string. -/
theorem extractMatch_emit (env : Env) (menv : MetaEnv) (text region : Str)
    (leniency : Leniency) (hwf : EnvWF env) (cand : Str) (off : Nat)
    (m0 : PhoneMatch) (mt : Int)
    (h : (extractMatch env menv text region leniency cand off m0 mt).1 = true) :
    off ≤ (extractMatch env menv text region leniency cand off m0 mt).2.1.start ∧
    (extractMatch env menv text region leniency cand off m0 mt).2.1.endPos ≤
      off + cand.length ∧
    (extractMatch env menv text region leniency cand off m0 mt).2.1.rawString ≠
      [] := by
  unfold extractMatch at h ⊢
  by_cases hcl : (env.pubPages cand || env.slashSeparatedDates cand) = true
  · rw [if_pos hcl] at h; simp at h
  · rw [if_neg hcl] at h ⊢
    by_cases hts : (env.timeStamps cand &&
        env.timeStampsSuffixConsume (text.drop (off + cand.length))) = true
    · rw [if_pos hts] at h; simp at h
    · rw [if_neg hts] at h ⊢
      try simp only [Bool.false_eq_true, eq_self_iff_true, if_true, if_false] at h
      try simp only [Bool.false_eq_true, eq_self_iff_true, if_true, if_false]
      try dsimp only at h
      try dsimp only
      rcases parseAndVerify_cases env menv text region leniency cand off m0 with
        hc | ⟨n, hp, hv, hb, hc⟩
      · rw [hc] at h ⊢
        try simp only [Bool.false_eq_true, eq_self_iff_true, if_true, if_false] at h
        try simp only [Bool.false_eq_true, eq_self_iff_true, if_true, if_false]
        try dsimp only at h
        try dsimp only
        exact extractInnerMatch_emit env menv text region leniency hwf cand off
          m0 mt h
      · rw [hc] at h ⊢
        try simp only [Bool.false_eq_true, eq_self_iff_true, if_true, if_false] at h
        try simp only [Bool.false_eq_true, eq_self_iff_true, if_true, if_false]
        try dsimp only at h
        try dsimp only
        refine ⟨Nat.le_refl off, Nat.le_refl _, ?_⟩
        exact matchingBrackets_ne_nil env hwf _ hb

/-- Every match produced by the Find loop run on the text's suffix at byte
offset j starts at or after j, is non-empty, and ends within the text. -/
theorem findLoop_emit (env : Env) (menv : MetaEnv) (text region : Str)
    (leniency : Leniency) (hwf : EnvWF env) :
    ∀ (fuel : Nat) (j : Nat) (mt : Int) (m0 : PhoneMatch), j ≤ text.length →
      (findLoop env menv text region leniency fuel (text.drop j) mt m0).1 =
        true →
      j ≤ (findLoop env menv text region leniency fuel (text.drop j) mt
          m0).2.1.start ∧
      (findLoop env menv text region leniency fuel (text.drop j) mt
          m0).2.1.start <
        (findLoop env menv text region leniency fuel (text.drop j) mt
          m0).2.1.endPos ∧
      (findLoop env menv text region leniency fuel (text.drop j) mt
          m0).2.1.endPos ≤ text.length := by
  intro fuel
  induction fuel with
  | zero =>
    intro j mt m0 hj h
    rw [findLoop_zero] at h
    simp at h
  | succ fuel ih =>
    intro j mt m0 hj h
    by_cases hmt : 0 < mt
    · cases hfp : env.findPhone (text.drop j) with
      | none =>
        rw [findLoop_none env menv text region leniency fuel _ mt m0 hmt hfp]
          at h
        simp at h
      | some pr =>
        obtain ⟨c0, rem2⟩ := pr
        obtain ⟨pre, hdec⟩ := hwf.findPhone_split (text.drop j) c0 rem2 hfp
        have hlen : (text.drop j).length = text.length - j := by
          simp [List.length_drop]
        have hsum : pre.length + c0.length + rem2.length = text.length - j := by
          rw [← hlen, hdec]
          simp [List.length_append]
          omega
        rw [findLoop_some env menv text region leniency fuel _ mt m0 c0 rem2
          hmt hfp] at h ⊢
        cases hr1 : (extractMatch env menv text region leniency
            (env.captureUpToSecondNumberStart c0)
            (text.length - rem2.length - c0.length) m0 mt).1 with
        | true =>
          rw [if_pos rfl]
          have hcap := hwf.capture_length c0
          obtain ⟨he1, he2, he3⟩ := extractMatch_emit env menv text region
            leniency hwf (env.captureUpToSecondNumberStart c0)
            (text.length - rem2.length - c0.length) m0 mt hr1
          have hlp : 0 < (extractMatch env menv text region leniency
              (env.captureUpToSecondNumberStart c0)
              (text.length - rem2.length - c0.length) m0 mt).2.1.rawString.length :=
            List.length_pos.mpr he3
          dsimp only
          simp only [PhoneMatch.endPos_eq] at he2 ⊢
          refine ⟨?_, ?_, ?_⟩ <;> omega
        | false =>
          rw [hr1] at h
          simp only [Bool.false_eq_true, if_false] at h ⊢
          try dsimp only at h ⊢
          have hrem2 : rem2 = text.drop (j + (pre.length + c0.length)) := by
            have h1 : (text.drop j).drop (pre.length + c0.length) = rem2 := by
              rw [hdec]
              have h2 : (pre ++ c0).length = pre.length + c0.length := by simp
              rw [← h2, List.drop_left]
            rw [List.drop_drop] at h1
            exact h1.symm
          rw [hrem2] at h ⊢
          obtain ⟨ha, hb, hc⟩ :=
            ih (j + (pre.length + c0.length)) _ _ (by omega) h
          exact ⟨by omega, hb, hc⟩
    · rw [findLoop_nonpos env menv text region leniency (fuel + 1) _ mt m0 hmt]
        at h
      simp at h

theorem runNext_bounds (env : Env) (menv : MetaEnv) (text region : Str)
    (leniency : Leniency) (hwf : EnvWF env) :
    ∀ (k : Nat) (s : MatcherS), MInv text s →
      (∀ m ∈ runNext env menv text region leniency k s,
        lowBound s ≤ m.start ∧ m.start < m.endPos) ∧
      List.Chain' (fun a b => a.endPos ≤ b.start)
        (runNext env menv text region leniency k s) := by
  intro k
  induction k with
  | zero =>
    intro s hinv
    constructor
    · intro m hm
      simp [runNext] at hm
    · exact List.chain'_nil
  | succ k ih =>
    intro s hinv
    obtain ⟨smt, sst, slm, ssi⟩ := s
    obtain ⟨hsi, hready⟩ := hinv
    cases sst with
    | done =>
      have hh := hasNext_done env menv text region leniency
        ⟨smt, MState.done, slm, ssi⟩ rfl
      have hnc : nextCall env menv text region leniency
          ⟨smt, MState.done, slm, ssi⟩ defaultPhoneMatch =
          (false, defaultPhoneMatch, ⟨smt, MState.done, slm, ssi⟩) := by
        simp [nextCall, hh]
      have hrn : runNext env menv text region leniency (k + 1)
          ⟨smt, MState.done, slm, ssi⟩ =
          runNext env menv text region leniency k ⟨smt, MState.done, slm, ssi⟩ := by
        simp [runNext, hnc]
      rw [hrn]
      exact ih _ ⟨hsi, hready⟩
    | ready =>
      obtain ⟨lm, hlm, hlt, hle⟩ := hready rfl
      have hle2 : lm.endPos ≤ ssi := hle
      subst hlm
      have hh := hasNext_ready env menv text region leniency
        ⟨smt, MState.ready, some lm, ssi⟩ rfl
      have hnc : nextCall env menv text region leniency
          ⟨smt, MState.ready, some lm, ssi⟩ defaultPhoneMatch =
          (true, lm, ⟨smt, MState.notReady, none, ssi⟩) := by
        simp [nextCall, hh]
      have hrn : runNext env menv text region leniency (k + 1)
          ⟨smt, MState.ready, some lm, ssi⟩ =
          lm :: runNext env menv text region leniency k
            ⟨smt, MState.notReady, none, ssi⟩ := by
        simp [runNext, hnc]
      rw [hrn]
      have hinv2 : MInv text ⟨smt, MState.notReady, none, ssi⟩ :=
        ⟨hsi, fun hc => nomatch hc⟩
      obtain ⟨ihm, ihc⟩ := ih _ hinv2
      constructor
      · intro m hm
        rcases List.mem_cons.mp hm with rfl | hm2
        · exact ⟨Nat.le_refl _, hlt⟩
        · have h1 : ssi ≤ m.start := (ihm m hm2).1
          refine ⟨?_, (ihm m hm2).2⟩
          have hlb : lowBound ⟨smt, MState.ready, some lm, ssi⟩ = lm.start := rfl
          rw [hlb]
          omega
      · rw [List.chain'_cons']
        constructor
        · intro b hb
          have h1 : ssi ≤ b.start := (ihm b (List.mem_of_mem_head? hb)).1
          show lm.endPos ≤ b.start
          omega
        · exact ihc
    | notReady =>
      rcases hfr : findFrom env menv text region leniency ssi smt
        defaultPhoneMatch with ⟨b, m, mt2, n⟩
      cases b with
      | false =>
        have hh := hasNext_notFound env menv text region leniency
          ⟨smt, MState.notReady, slm, ssi⟩ m mt2 n rfl hfr
        have hnc : nextCall env menv text region leniency
            ⟨smt, MState.notReady, slm, ssi⟩ defaultPhoneMatch =
            (false, defaultPhoneMatch, ⟨mt2, MState.done, slm, ssi⟩) := by
          simp [nextCall, hh]
        have hrn : runNext env menv text region leniency (k + 1)
            ⟨smt, MState.notReady, slm, ssi⟩ =
            runNext env menv text region leniency k
              ⟨mt2, MState.done, slm, ssi⟩ := by
          simp [runNext, hnc]
        rw [hrn]
        have hinv2 : MInv text ⟨mt2, MState.done, slm, ssi⟩ :=
          ⟨hsi, fun hc => nomatch hc⟩
        obtain ⟨ihm, ihc⟩ := ih _ hinv2
        exact ⟨fun m hm => ihm m hm, ihc⟩
      | true =>
        have hfb : (findFrom env menv text region leniency ssi smt
            defaultPhoneMatch).1 = true := by rw [hfr]
        have hem := findLoop_emit env menv text region leniency hwf smt.toNat
          ssi smt defaultPhoneMatch hsi hfb
        rw [show findLoop env menv text region leniency smt.toNat
            (text.drop ssi) smt defaultPhoneMatch =
            findFrom env menv text region leniency ssi smt defaultPhoneMatch
            from rfl, hfr] at hem
        dsimp only at hem
        obtain ⟨hm1a, hm1b, hm1c⟩ := hem
        have hh := hasNext_found env menv text region leniency
          ⟨smt, MState.notReady, slm, ssi⟩ m mt2 n rfl hfr
        have hnc : nextCall env menv text region leniency
            ⟨smt, MState.notReady, slm, ssi⟩ defaultPhoneMatch =
            (true, m, ⟨mt2, MState.notReady, none, m.endPos⟩) := by
          simp [nextCall, hh]
        have hrn : runNext env menv text region leniency (k + 1)
            ⟨smt, MState.notReady, slm, ssi⟩ =
            m :: runNext env menv text region leniency k
              ⟨mt2, MState.notReady, none, m.endPos⟩ := by
          simp [runNext, hnc]
        rw [hrn]
        have hinv2 : MInv text ⟨mt2, MState.notReady, none, m.endPos⟩ :=
          ⟨hm1c, fun hc => nomatch hc⟩
        obtain ⟨ihm, ihc⟩ := ih _ hinv2
        constructor
        · intro x hx
          rcases List.mem_cons.mp hx with rfl | hx2
          · exact ⟨hm1a, hm1b⟩
          · have h2 : m.endPos ≤ x.start := (ihm x hx2).1
            refine ⟨?_, (ihm x hx2).2⟩
            have hlb : lowBound ⟨smt, MState.notReady, slm, ssi⟩ = ssi := rfl
            rw [hlb]
            omega
        · rw [List.chain'_cons']
          refine ⟨?_, ihc⟩
          intro b hb
          exact (ihm b (List.mem_of_mem_head? hb)).1

theorem runNext_length (env : Env) (menv : MetaEnv) (text region : Str)
    (leniency : Leniency) :
    ∀ (k : Nat) (s : MatcherS),
      (runNext env menv text region leniency k s).length ≤ k := by
  intro k
  induction k with
  | zero => intro s; exact Nat.le_refl 0
  | succ k ih =>
    intro s
    simp only [runNext]
    split
    · simpa using Nat.succ_le_succ (ih _)
    · exact Nat.le_trans (ih _) (Nat.le_succ k)

/-- C3: for every collaborator environment satisfying the interface facts of
EnvWF, every text, region, leniency and max_tries, the matches emitted by
repeated next calls are strictly increasing in start and never overlap: each
match's end (start plus the byte length of its raw string) exceeds its start
and is at most the next match's start; and each next call yields at most one
match (at most k matches over k calls). -/
theorem C3_matches_ordered :
    ∀ (env : Env) (menv : MetaEnv) (text region : Str) (leniency : Leniency),
      EnvWF env →
      ∀ (k : Nat) (mt : Int),
        (∀ m ∈ runNext env menv text region leniency k (initMatcher mt),
          m.start < m.endPos) ∧
        List.Chain' (fun a b => a.endPos ≤ b.start)
          (runNext env menv text region leniency k (initMatcher mt)) ∧
        (runNext env menv text region leniency k (initMatcher mt)).length ≤ k := by
  intro env menv text region leniency hwf k mt
  have hinv : MInv text (initMatcher mt) := ⟨Nat.zero_le _, fun hc => nomatch hc⟩
  obtain ⟨h1, h2⟩ := runNext_bounds env menv text region leniency hwf k
    (initMatcher mt) hinv
  exact ⟨fun m hm => (h1 m hm).2, h2,
    runNext_length env menv text region leniency k _⟩

theorem envBase_wf : EnvWF envBase := by
  refine ⟨?_, ?_, ?_, ?_, ?_⟩
  · intro s c r h
    simp [envBase] at h
  · intro c
    exact Nat.le_refl _
  · rfl
  · intro s r h
    simp [envBase] at h
  · intro s
    exact Nat.le_refl _

/-- Witness for C3 at a concrete environment satisfying EnvWF. -/
theorem C3_matches_ordered_witness :
    List.Chain' (fun a b => a.endPos ≤ b.start)
      (runNext envBase menvBase [] [] Leniency.valid 3 (initMatcher 5)) ∧
    (runNext envBase menvBase [] [] Leniency.valid 3 (initMatcher 5)).length ≤ 3 :=
  ⟨(C3_matches_ordered envBase menvBase [] [] Leniency.valid envBase_wf 3 5).2.1,
   (C3_matches_ordered envBase menvBase [] [] Leniency.valid envBase_wf 3 5).2.2⟩

end PhoneMatcher
